import Mathlib

/-!
Verification development for the Rack-Management backend (`src/backend/server.py`).

The service is a CRUD HTTP layer over a MongoDB collection `db.racks`.  We give a
shallow embedding: the collection is a `List Rack` in natural (insertion) order,
and every endpoint handler becomes a pure Lean function with explicit state
passing.  Nondeterministic effects of the source are passed as parameters:

* `uuid.uuid4()` results become `freshId : String` parameters;
* every `datetime.utcnow()` call becomes a `Nat` parameter (one parameter per
  call site — `Rack`'s two timestamp fields are filled by two separate
  `default_factory` calls in the source, so creation takes two clock readings);
* fallible handlers return `Except ApiError _`, with `ApiError` standing for the
  HTTP error classes the handlers raise (404 / 422 / 500).

MongoDB operations used by the source (`find_one`, `update_one` with `$set`,
`delete_one`, `distinct`, `find` + `sort` + `to_list`, and `$text` search over
the startup-created text index on `rackNumber`, `floor`, `items`) are modelled
on the list representation, following MongoDB's documented semantics.
-/

namespace RackMgmt

/-- `RackCreate` (pydantic model): the POST /racks payload.  The source declares
plain `str` fields with no constraint, so any strings are accepted. -/
structure RackCreate where
  rackNumber : String
  floor : String
  items : List String
deriving DecidableEq, Repr

/-- `RackUpdate` (pydantic model): the PUT /racks payload; every field is
`Optional` with default `None`. -/
structure RackUpdate where
  rackNumber : Option String
  floor : Option String
  items : Option (List String)
deriving DecidableEq, Repr

/-- `Rack` (pydantic model): the persisted record.  Timestamps are modelled as
`Nat` clock readings. -/
structure Rack where
  id : String
  rackNumber : String
  floor : String
  items : List String
  createdAt : Nat
  updatedAt : Nat
deriving DecidableEq, Repr

/-- The error classes raised by the handlers: 404, 422 and 500. -/
inductive ApiError where
  | notFound
  | validation
  | server
deriving DecidableEq, Repr

/-- The `db.racks` collection in natural (insertion) order. -/
abbrev Store := List Rack

/-- `db.racks.find_one({"id": rack_id})`: first document (in natural order)
whose `id` field equals `rack_id`. -/
def find_one (store : Store) (rack_id : String) : Option Rack :=
  store.find? (fun r => r.id == rack_id)

/-- `create_rack` (POST /racks): builds `Rack(**rack_data.dict())` — the id and
the two timestamps come from the three `default_factory` calls, passed here as
`freshId`, `nowC` (the `createdAt` clock reading) and `nowU` (the separate
`updatedAt` clock reading) — and appends it to the collection
(`insert_one`).  No field validation is performed beyond pydantic's type check,
which any strings satisfy. -/
def create_rack (store : Store) (rack_data : RackCreate) (freshId : String)
    (nowC nowU : Nat) : Store × Rack :=
  let rack_obj : Rack :=
    { id := freshId, rackNumber := rack_data.rackNumber, floor := rack_data.floor,
      items := rack_data.items, createdAt := nowC, updatedAt := nowU }
  (store ++ [rack_obj], rack_obj)

/-- `get_rack` (GET /racks/{rack_id}): point lookup; missing id raises 404. -/
def get_rack (store : Store) (rack_id : String) : Except ApiError Rack :=
  match find_one store rack_id with
  | none => .error .notFound
  | some r => .ok r

/-- The `$set` document built by `update_rack`: the non-`None` payload fields
plus `updatedAt = datetime.utcnow()` (clock reading `now`).  `id` and
`createdAt` are never part of the update document. -/
def applySet (u : RackUpdate) (now : Nat) (r : Rack) : Rack :=
  { r with
    rackNumber := u.rackNumber.getD r.rackNumber
    floor := u.floor.getD r.floor
    items := u.items.getD r.items
    updatedAt := now }

/-- `db.racks.update_one({"id": rack_id}, {"$set": ...})`: rewrites the first
matching document in place, leaves everything else untouched. -/
def updateFirst (store : Store) (rack_id : String) (f : Rack → Rack) : Store :=
  match store with
  | [] => []
  | r :: rs => if r.id == rack_id then f r :: rs else r :: updateFirst rs rack_id f

/-- `update_rack` (PUT /racks/{rack_id}): looks the record up (404 if absent),
applies the `$set`, then re-reads the record and returns it.  A failing re-read
would make `Rack(**None)` raise, caught as a 500. -/
def update_rack (store : Store) (rack_id : String) (rack_update : RackUpdate)
    (now : Nat) : Except ApiError (Store × Rack) :=
  match find_one store rack_id with
  | none => .error .notFound
  | some _ =>
    let store2 := updateFirst store rack_id (applySet rack_update now)
    match find_one store2 rack_id with
    | none => .error .server
    | some updated_rack => .ok (store2, updated_rack)

/-- `delete_rack` (DELETE /racks/{rack_id}): `delete_one` removes the first
matching document; `deleted_count == 0` raises 404, so the count distinguishes
a removal from nothing-to-delete. -/
def delete_rack (store : Store) (rack_id : String) : Except ApiError Store :=
  if store.any (fun r => r.id == rack_id) then
    .ok (store.eraseP (fun r => r.id == rack_id))
  else
    .error .notFound

/-- Python's `str.strip()`: the string with leading and trailing whitespace
removed (as a character list).  Used only to state the spec's
"non-empty-after-trim" requirement; the source itself never trims. -/
def pyStrip (s : String) : List Char :=
  ((s.data.dropWhile Char.isWhitespace).reverse.dropWhile Char.isWhitespace).reverse

-- ### The highlighting regex (`re.compile(re.escape(q), re.IGNORECASE)`)

/-- Elements of a compiled Python regex, restricted to the fragment the source
can reach: literal characters (everything `re.escape` emits), `.` and `X*`.
Constructs that can never survive `re.escape` are rejected at compile time. -/
inductive RElem where
  | lit (c : Char)
  | dot
  | star (e : RElem)
deriving DecidableEq, Repr

def isStarElem : RElem → Bool
  | .star _ => true
  | _ => false

/-- Pattern metacharacters refused by the mini engine when unescaped (they are
all escaped by `re.escape`, so the source never feeds them to it unescaped). -/
def isMeta (c : Char) : Bool :=
  c ∈ ['(', ')', '[', ']', '\x7b', '\x7d', '|', '^', '$', '+', '?']

/-- The characters Python's `re.escape` prefixes with a backslash
(CPython's `_special_chars_map`). -/
def pyRegexSpecial (c : Char) : Bool :=
  c ∈ ['(', ')', '[', ']', '\x7b', '\x7d', '?', '*', '+', '-', '|', '^', '$',
       '\\', '.', '&', '~', '#', ' ', '\t', '\n', '\r', '\x0b', '\x0c']

/-- `re.escape(c)` for a single character. -/
def escChar (c : Char) : List Char :=
  if pyRegexSpecial c then ['\\', c] else [c]

/-- `re.escape(q)`: every regex-special character gets a backslash prefix. -/
def reEscape (q : String) : List Char :=
  q.data.flatMap escChar

/-- `re.compile`, on the reachable fragment: `\c` is the literal `c`, `.` is
any character, `*` repeats the preceding element; an unescaped metacharacter,
a trailing backslash, a leading `*` and a double star fail to compile. -/
def parsePattern : List Char → List RElem → Option (List RElem)
  | [], acc => some acc.reverse
  | c :: rest, acc =>
    if c = '\\' then
      match rest with
      | [] => none
      | d :: rest2 => parsePattern rest2 (.lit d :: acc)
    else if c = '.' then parsePattern rest (.dot :: acc)
    else if c = '*' then
      match acc with
      | [] => none
      | a :: acc2 => if isStarElem a then none else parsePattern rest (.star a :: acc2)
    else if isMeta c then none
    else parsePattern rest (.lit c :: acc)

/-- `re.IGNORECASE` comparison of a pattern literal with a subject character. -/
def charMatch (c x : Char) : Bool := c.toLower == x.toLower

def atomMatch : RElem → Char → Bool
  | .lit c, x => charMatch c x
  | .dot, x => x != '\n'
  | .star _, _ => false

/-- Does the element sequence match a prefix of `s` (Python match semantics at
a fixed position, case-insensitive)? -/
def matchSeq : List RElem → List Char → Bool
  | [], _ => true
  | .lit c :: es, x :: xs => charMatch c x && matchSeq es xs
  | .dot :: es, x :: xs => (x != '\n') && matchSeq es xs
  | .star a :: es, s =>
      matchSeq es s ||
        (match s with
         | [] => false
         | x :: xs => atomMatch a x && matchSeq (.star a :: es) xs)
  | _ :: _, [] => false
termination_by es s => (s.length, es.length)

/-- `regex.search(s)`: try to match at every start position. -/
def regexSearchFrom (es : List RElem) : List Char → Bool
  | [] => matchSeq es []
  | x :: xs => matchSeq es (x :: xs) || regexSearchFrom es xs

/-- `re.compile(re.escape(q), re.IGNORECASE)` as used by `search_racks`. -/
def compiledSearch (q : String) : Option (List RElem) :=
  parsePattern (reEscape q) []

-- ### Search (`GET /racks/search`)

/-- Characters in lowercase, for the spec-level case-insensitive comparison. -/
def lowerChars (s : String) : List Char := s.data.map Char.toLower

/-- Spec predicate: `q` occurs in `s` as a case-insensitive literal substring. -/
def substrCI (q s : String) : Prop := lowerChars q <:+: lowerChars s

instance (q s : String) : Decidable (substrCI q s) := by
  unfold substrCI
  infer_instance

/-- Split a character list at every character satisfying `p`, keeping empty
segments (so `n` delimiters yield `n + 1` segments). -/
def splitWhen (p : Char → Bool) : List Char → List (List Char)
  | [] => [[]]
  | c :: rest =>
    if p c then [] :: splitWhen p rest
    else
      match splitWhen p rest with
      | [] => [[c]]
      | t :: ts => (c :: t) :: ts

/-- Delimiter tokenization of the text index's analyzer: lowercase, split at
every non-alphanumeric character, drop empty pieces. -/
def tokenizeChars (l : List Char) : List (List Char) :=
  (splitWhen (fun c => !c.isAlphanum) (l.map Char.toLower)).filter
    (fun t => !t.isEmpty)

def tokenizeText (s : String) : List (List Char) :=
  tokenizeChars s.data

/-- MongoDB's English stop-word list (`stop_words_english.txt`): the words the
index's default English analyzer drops from indexed text and from `$search`
strings alike.  (Entries with apostrophes can never equal a token of the
delimiter tokenizer; they are kept for fidelity to the list.) -/
def mongoStopWords : List (List Char) :=
  (["a", "about", "above", "after", "again", "against", "all", "am", "an",
    "and", "any", "are", "aren\x27t", "as", "at", "be", "because", "been",
    "before", "being", "below", "between", "both", "but", "by", "can\x27t",
    "cannot", "could", "couldn\x27t", "did", "didn\x27t", "do", "does",
    "doesn\x27t", "doing", "don\x27t", "down", "during", "each", "few", "for",
    "from", "further", "had", "hadn\x27t", "has", "hasn\x27t", "have",
    "haven\x27t", "having", "he", "he\x27d", "he\x27ll", "he\x27s", "her",
    "here", "here\x27s", "hers", "herself", "him", "himself", "his", "how",
    "how\x27s", "i", "i\x27d", "i\x27ll", "i\x27m", "i\x27ve", "if", "in",
    "into", "is", "isn\x27t", "it", "it\x27s", "its", "itself", "let\x27s",
    "me", "more", "most", "mustn\x27t", "my", "myself", "no", "nor", "not",
    "of", "off", "on", "once", "only", "or", "other", "ought", "our", "ours",
    "ourselves", "out", "over", "own", "same", "shan\x27t", "she", "she\x27d",
    "she\x27ll", "she\x27s", "should", "shouldn\x27t", "so", "some", "such",
    "than", "that", "that\x27s", "the", "their", "theirs", "them",
    "themselves", "then", "there", "there\x27s", "these", "they", "they\x27d",
    "they\x27ll", "they\x27re", "they\x27ve", "this", "those", "through",
    "to", "too", "under", "until", "up", "very", "was", "wasn\x27t", "we",
    "we\x27d", "we\x27ll", "we\x27re", "we\x27ve", "were", "weren\x27t",
    "what", "what\x27s", "when", "when\x27s", "where", "where\x27s", "which",
    "while", "who", "who\x27s", "whom", "why", "why\x27s", "with", "won\x27t",
    "would", "wouldn\x27t", "you", "you\x27d", "you\x27ll", "you\x27re",
    "you\x27ve", "your", "yours", "yourself", "yourselves"] : List String).map
    String.data

/-- What the English analyzer keeps of a character stream: its tokens minus
the stop words.  (Stemming is not modelled: it maps equal tokens to equal
stems, so every exact token match below is also a stemmed match of the real
index — it only ever broadens the program's match set.) -/
def indexTokensChars (l : List Char) : List (List Char) :=
  (tokenizeChars l).filter (fun t => !(mongoStopWords.contains t))

def indexTokens (s : String) : List (List Char) :=
  indexTokensChars s.data

/-- All terms the text index stores for one rack: the index created at startup
spans `rackNumber`, `floor` and every entry of `items`, each passed through
the English analyzer. -/
def rackTokens (r : Rack) : List (List Char) :=
  indexTokens r.rackNumber ++ indexTokens r.floor ++ r.items.flatMap indexTokens

/-- `$search`-string parsing: MongoDB first splits the search string on
whitespace into terms (before analysis). -/
def searchTerms (q : String) : List (List Char) :=
  (splitWhen (fun c => c.isWhitespace) q.data).filter (fun t => !t.isEmpty)

/-- A term negated by a prefixed `-` (a bare `-` negates nothing). -/
def isNegTerm : List Char → Bool
  | '-' :: _ :: _ => true
  | _ => false

/-- The elements at odd positions of a list. -/
def oddIdx {α : Type} : List α → List α
  | [] => []
  | [_] => []
  | _ :: b :: rest => b :: oddIdx rest

/-- The quoted phrases of a `$search` string: the segments between double
quotes (the odd segments of the split at `"`). -/
def quotedPhrases (q : String) : List (List Char) :=
  oddIdx (splitWhen (fun c => c = '\x22') q.data)

/-- A phrase matches a rack when it occurs, case-insensitively, inside one of
the indexed fields. -/
def phraseHit (r : Rack) (p : List Char) : Bool :=
  ([r.rackNumber, r.floor] ++ r.items).any
    (fun s => decide (p.map Char.toLower <:+: lowerChars s))

/-- The store-side `{"$text": {"$search": q}}` filter, per MongoDB's documented
semantics.  A `$search` string without operator characters is an OR of its
analyzed terms: the document matches when some non-stop-word token of the
query equals (case-insensitively) some indexed token — whole tokens only,
never substrings inside a word.  With operators: every quoted phrase must
occur in a field, a `-`-negated term must not occur among the indexed tokens,
and (absent phrases) some positive term must match; a query of stop words or
negations only matches nothing.  (The two branches agree on operator-free
strings; the split keeps the operator plumbing out of the plain path.) -/
def textMatch (q : String) (r : Rack) : Bool :=
  if q.data.contains '-' || q.data.contains '\x22' then
    (quotedPhrases q).all (phraseHit r) &&
    (!(quotedPhrases q).isEmpty ||
      ((searchTerms q).filter (fun t => !isNegTerm t)).any
        (fun t => (indexTokensChars t).any (fun u => (rackTokens r).contains u))) &&
    ((searchTerms q).filter isNegTerm).all
      (fun t => (indexTokensChars (t.drop 1)).all
        (fun u => !(rackTokens r).contains u))
  else
    (indexTokens q).any (fun t => (rackTokens r).contains t)

/-- Spec-side reading of the operator-free match condition, as a proposition:
some analyzer-kept (non-stop-word) token of the query is among the rack's
indexed tokens. -/
def tokenMatches (q : String) (r : Rack) : Prop :=
  ∃ t ∈ indexTokens q, t ∈ rackTokens r

instance (q : String) (r : Rack) : Decidable (tokenMatches q r) := by
  unfold tokenMatches
  infer_instance

/-- A `$search` string free of operator characters (`-` negation, `"` phrase
delimiters). -/
def opFree (q : String) : Prop :=
  ∀ c ∈ q.data, ¬c = '-' ∧ ¬c = '\x22'

instance (q : String) : Decidable (opFree q) := by
  unfold opFree
  infer_instance

/-- `db.racks.find({"$text": ...}).to_list(1000)`: the matching racks in
natural order, truncated to the first 1000. -/
def searchResults (store : Store) (q : String) : List Rack :=
  (store.filter (textMatch q)).take 1000

/-- The highlight loop over the returned racks: `g r` computes the matched
items of one rack, and nonempty results are stored under the rack's id
(Python dict assignment overwrites; the dict starts empty). -/
def highlightFold (g : Rack → List String) (racks : List Rack) :
    String → Option (List String) :=
  racks.foldl
    (fun d r =>
      let ms := g r
      if ms.isEmpty then d
      else fun k => if k == r.id then some ms else d k)
    (fun _ => none)

/-- The `matched_items` dict: for each returned rack, the items the compiled
regex `search` finds, keyed by rack id when nonempty. -/
def searchMatchedItems (store : Store) (q : String) : String → Option (List String) :=
  match compiledSearch q with
  | none => fun _ => none
  | some es =>
    highlightFold (fun r => r.items.filter (fun item => regexSearchFrom es item.data))
      (searchResults store q)

/-- `RackSearchResponse`: the racks plus the rack-id → matched-items mapping. -/
structure RackSearchResponse where
  racks : List Rack
  matchedItems : String → Option (List String)

/-- `search_racks` (GET /racks/search?q=): `q` shorter than 1 character is a
422 validation failure; a regex-compile failure would be caught as a 500;
otherwise the text-index hits plus the highlight dict are returned. -/
def search_racks (store : Store) (q : String) : Except ApiError RackSearchResponse :=
  if q.length < 1 then .error .validation
  else
    match compiledSearch q with
    | none => .error .server
    | some _ =>
      .ok { racks := searchResults store q,
            matchedItems := searchMatchedItems store q }

/-- Spec-side highlighting, modelled from the spec's words: for each returned
rack collect every item containing the query as a case-insensitive literal
substring, keyed by rack id when nonempty. -/
def specMatchedItems (q : String) (racks : List Rack) : String → Option (List String) :=
  highlightFold (fun r => r.items.filter (fun item => decide (substrCI q item))) racks

-- ### Paginated listing (`GET /racks`)

/-- Python string comparison (code-point lexicographic `<=`) on char lists. -/
def lexLe : List Char → List Char → Bool
  | [], _ => true
  | _ :: _, [] => false
  | a :: as, b :: bs => if a = b then lexLe as bs else decide (a.toNat < b.toNat)

/-- Python `<=` on strings. -/
def strLe (s t : String) : Bool := lexLe s.data t.data

/-- `db.racks.distinct("floor")` followed by `all_floors.sort()`: the distinct
floor values in ascending order. -/
def distinctFloorsSorted (store : Store) : List String :=
  List.insertionSort (fun a b => strLe a b = true) ((store.map Rack.floor).dedup)

/-- `all_floors[skip : skip + limit]` with `skip = (page - 1) * limit`. -/
def pageWindow (page limit : Nat) (floors : List String) : List String :=
  (floors.drop ((page - 1) * limit)).take limit

/-- `db.racks.find({"floor": {"$in": floors}}).sort("floor", 1).to_list(10000)`:
the racks on the windowed floors, ordered by floor, truncated at 10000. -/
def racksForFloors (store : Store) (floors : List String) : List Rack :=
  (List.insertionSort (fun x y : Rack => strLe x.floor y.floor = true)
      (store.filter (fun r => floors.contains r.floor))).take 10000

/-- One step of the grouping loop: `floors[rack.floor].append(rack)`, guarded by
the `rack_obj.floor in floors` membership check. -/
def addToFloor (acc : List (String × List Rack)) (r : Rack) : List (String × List Rack) :=
  match acc with
  | [] => []
  | (f, rs) :: rest =>
    if r.floor == f then (f, rs ++ [r]) :: rest else (f, rs) :: addToFloor rest r

/-- `floors = {floor: [] for floor in paginated_floors}` then the append loop.
The mapping keeps the windowed floors as keys in order (Python dicts preserve
insertion order). -/
def groupByFloor (keys : List String) (racks : List Rack) : List (String × List Rack) :=
  racks.foldl addToFloor (keys.map fun f => (f, []))

/-- `get_all_racks` (GET /racks?page=&limit=): `page` below 1 or `limit`
outside [1, 20] is a 422; an empty floor window short-circuits to the empty
mapping; otherwise the racks of the windowed floors are fetched and grouped. -/
def get_all_racks (store : Store) (page limit : Nat) :
    Except ApiError (List (String × List Rack)) :=
  if page < 1 ∨ limit < 1 ∨ limit > 20 then .error .validation
  else if (pageWindow page limit (distinctFloorsSorted store)).isEmpty then .ok []
  else .ok (groupByFloor (pageWindow page limit (distinctFloorsSorted store))
    (racksForFloors store (pageWindow page limit (distinctFloorsSorted store))))

-- ### Operation sequences (for the lifecycle invariant)

/-- One client-visible mutating request, with the clock readings its handler
makes baked in (`create` reads the clock twice, `update` once). -/
inductive Op where
  | create (freshId rackNumber floor : String) (items : List String) (nowC nowU : Nat)
  | update (rack_id : String) (u : RackUpdate) (now : Nat)
  | delete (rack_id : String)

/-- Effect of one request on the collection (failed requests leave it as is). -/
def applyOp (store : Store) (op : Op) : Store :=
  match op with
  | .create freshId rackNumber floor items nowC nowU =>
      (create_rack store ⟨rackNumber, floor, items⟩ freshId nowC nowU).1
  | .update rack_id u now =>
      match update_rack store rack_id u now with
      | .ok (store2, _) => store2
      | .error _ => store
  | .delete rack_id =>
      match delete_rack store rack_id with
      | .ok store2 => store2
      | .error _ => store

/-- A whole request history applied in order. -/
def execOps (store : Store) (ops : List Op) : Store := ops.foldl applyOp store

/-- The clock readings one request makes, in the order it makes them. -/
def opTimes : Op → List Nat
  | .create _ _ _ _ nowC nowU => [nowC, nowU]
  | .update _ _ now => [now]
  | .delete _ => []

-- ### Concrete fixtures used by witnesses and counterexamples

/-- A rack mirroring the spec's own search example. -/
def rackE : Rack :=
  { id := "id1", rackNumber := "R001", floor := "Ground Floor",
    items := ["Electronics", "Chargers"], createdAt := 0, updatedAt := 0 }

/-- A second rack on the same floor, with no electronics. -/
def rackC : Rack :=
  { id := "id2", rackNumber := "R002", floor := "Ground Floor",
    items := ["Cables"], createdAt := 0, updatedAt := 0 }

/-- A rack whose item list contains a star metacharacter literally. -/
def rackStar : Rack :=
  { id := "id3", rackNumber := "R0*1", floor := "Basement",
    items := ["R0*1 spare", "R091 spare"], createdAt := 0, updatedAt := 0 }

/-- A one-floor rack used to overflow the 10000-record page fetch. -/
def rackA : Rack :=
  { id := "idA", rackNumber := "RA", floor := "A", items := [],
    createdAt := 0, updatedAt := 0 }

/-- 10001 racks on one floor: one more than a page fetch materializes. -/
def bigStore : Store := List.replicate 10001 rackA

-- ### Helper lemmas on the CRUD primitives

lemma find_one_append_of_fresh (store : Store) (a : Rack)
    (hfresh : ∀ r ∈ store, r.id ≠ a.id) :
    find_one (store ++ [a]) a.id = some a := by
  induction store with
  | nil => simp [find_one]
  | cons b bs ih =>
    have hb : b.id ≠ a.id := hfresh b (by simp)
    have : find_one (bs ++ [a]) a.id = some a :=
      ih (fun r hr => hfresh r (by simp [hr]))
    simpa [find_one, List.find?_cons, hb] using this

lemma find?_updateFirst (store : Store) (rack_id : String) (f : Rack → Rack)
    (r : Rack) (hfind : store.find? (fun x => x.id == rack_id) = some r)
    (hid : (f r).id = r.id) :
    (updateFirst store rack_id f).find? (fun x => x.id == rack_id) = some (f r) := by
  induction store with
  | nil => simp at hfind
  | cons a as ih =>
    by_cases h : a.id = rack_id
    · have : a = r := by
        have := hfind
        rw [List.find?_cons_of_pos _ (by simp [h])] at this
        exact (Option.some_inj.mp this)
      subst this
      have hfr : (f a).id == rack_id := by simp [hid, h]
      have hup : updateFirst (a :: as) rack_id f = f a :: as := by
        simp [updateFirst, h]
      rw [hup]
      exact List.find?_cons_of_pos _ hfr
    · have hfind' : as.find? (fun x => x.id == rack_id) = some r := by
        have := hfind
        rwa [List.find?_cons_of_neg _ (by simp [h])] at this
      simp [updateFirst, h, List.find?_cons_of_neg _ (show ¬(a.id == rack_id) by simp [h]),
        ih hfind']

lemma update_rack_ok (store : Store) (rack_id : String) (u : RackUpdate)
    (now : Nat) (r : Rack) (hfind : find_one store rack_id = some r) :
    update_rack store rack_id u now =
      .ok (updateFirst store rack_id (applySet u now), applySet u now r) := by
  have h2 := find?_updateFirst store rack_id (applySet u now) r
    (by simpa [find_one] using hfind) rfl
  unfold update_rack
  rw [hfind]
  simp [find_one, h2]

lemma mem_updateFirst (store : Store) (rack_id : String) (f : Rack → Rack)
    (x : Rack) (hx : x ∈ updateFirst store rack_id f) :
    x ∈ store ∨ ∃ y ∈ store, x = f y := by
  induction store with
  | nil => simp [updateFirst] at hx
  | cons a as ih =>
    by_cases h : a.id = rack_id
    · simp only [updateFirst, h] at hx
      rcases (by simpa using hx) with h1 | h2
      · exact Or.inr ⟨a, by simp, h1⟩
      · exact Or.inl (by simp [h2])
    · simp only [updateFirst, if_neg (by simp [h] : ¬((a.id == rack_id) = true))] at hx
      rcases (by simpa using hx) with h1 | h2
      · exact Or.inl (by simp [h1])
      · rcases ih h2 with h3 | ⟨y, hy, hxy⟩
        · exact Or.inl (by simp [h3])
        · exact Or.inr ⟨y, by simp [hy], hxy⟩

lemma eraseP_id_not_mem (store : Store) (i : String)
    (hnodup : (store.map Rack.id).Nodup) :
    ∀ r ∈ store.eraseP (fun x => x.id == i), r.id ≠ i := by
  induction store with
  | nil => simp
  | cons a as ih =>
    by_cases h : a.id = i
    · intro r hr
      rw [List.eraseP_cons_of_pos (by simp [h])] at hr
      intro hri
      have : a.id ∉ as.map Rack.id := (List.nodup_cons.mp hnodup).1
      exact this (by
        rw [h, ← hri]
        exact List.mem_map_of_mem Rack.id hr)
    · intro r hr
      rw [List.eraseP_cons_of_neg (by simp [h])] at hr
      rcases List.mem_cons.mp hr with h1 | h2
      · simpa [h1] using h
      · exact ih (List.nodup_cons.mp hnodup).2 r h2

lemma find_one_eraseP_eq_none (store : Store) (i : String)
    (hnodup : (store.map Rack.id).Nodup) :
    find_one (store.eraseP (fun x => x.id == i)) i = none := by
  rw [find_one, List.find?_eq_none]
  intro x hx
  simpa using eraseP_id_not_mem store i hnodup x hx

-- ### The escaped regex is exactly literal substring search

lemma isMeta_special (c : Char) (h : isMeta c = true) : pyRegexSpecial c = true := by
  simp only [isMeta, List.elem_iff, List.mem_cons, List.not_mem_nil, or_false,
    decide_eq_true_eq] at h
  rcases h with rfl | rfl | rfl | rfl | rfl | rfl | rfl | rfl | rfl | rfl | rfl <;> decide

lemma not_special (c : Char) (h : ¬pyRegexSpecial c = true) :
    ¬c = '\\' ∧ ¬c = '.' ∧ ¬c = '*' ∧ ¬isMeta c = true := by
  refine ⟨?_, ?_, ?_, ?_⟩
  · rintro rfl; exact h (by decide)
  · rintro rfl; exact h (by decide)
  · rintro rfl; exact h (by decide)
  · intro hm; exact h (isMeta_special c hm)

lemma parsePattern_escape (cs : List Char) :
    ∀ acc, parsePattern (cs.flatMap escChar) acc =
      some (acc.reverse ++ cs.map RElem.lit) := by
  induction cs with
  | nil => intro acc; simp [parsePattern]
  | cons c cs ih =>
    intro acc
    by_cases hc : pyRegexSpecial c = true
    · have hflat : (c :: cs).flatMap escChar = '\\' :: c :: cs.flatMap escChar := by
        simp [List.flatMap_cons, escChar, hc]
      rw [hflat]
      rw [show parsePattern ('\\' :: c :: cs.flatMap escChar) acc
            = parsePattern (cs.flatMap escChar) (.lit c :: acc) from by
        rw [parsePattern.eq_def]
        simp]
      rw [ih]
      simp
    · obtain ⟨h1, h2, h3, h4⟩ := not_special c hc
      have hflat : (c :: cs).flatMap escChar = c :: cs.flatMap escChar := by
        simp [List.flatMap_cons, escChar, hc]
      rw [hflat]
      rw [show parsePattern (c :: cs.flatMap escChar) acc
            = parsePattern (cs.flatMap escChar) (.lit c :: acc) from by
        rw [parsePattern.eq_def]
        simp [h1, h2, h3, h4]]
      rw [ih]
      simp

lemma compiledSearch_eq (q : String) :
    compiledSearch q = some (q.data.map RElem.lit) := by
  simpa [compiledSearch, reEscape] using parsePattern_escape q.data []

lemma matchSeq_lits (p : List Char) :
    ∀ s, (matchSeq (p.map RElem.lit) s = true ↔
      p.map Char.toLower <+: s.map Char.toLower) := by
  induction p with
  | nil => intro s; simp [matchSeq]
  | cons c p ih =>
    intro s
    cases s with
    | nil => simp [matchSeq]
    | cons x xs =>
      simp [matchSeq, charMatch, List.cons_prefix_cons, ih xs]

lemma regexSearchFrom_iff (es : List RElem) :
    ∀ s, (regexSearchFrom es s = true ↔ ∃ t, t <:+ s ∧ matchSeq es t = true) := by
  intro s
  induction s with
  | nil =>
    simp [regexSearchFrom, List.suffix_nil]
  | cons x xs ih =>
    rw [regexSearchFrom]
    constructor
    · intro h
      rw [Bool.or_eq_true] at h
      rcases h with h1 | h2
      · exact ⟨x :: xs, List.suffix_rfl, h1⟩
      · obtain ⟨t, ht, hm⟩ := ih.mp h2
        exact ⟨t, ht.trans (List.suffix_cons x xs), hm⟩
    · rintro ⟨t, ht, hm⟩
      rw [Bool.or_eq_true]
      rcases List.suffix_cons_iff.mp ht with rfl | ht'
      · exact Or.inl hm
      · exact Or.inr (ih.mpr ⟨t, ht', hm⟩)

lemma regexSearch_lits_iff (q s : String) :
    regexSearchFrom (q.data.map RElem.lit) s.data = true ↔ substrCI q s := by
  rw [regexSearchFrom_iff]
  unfold substrCI lowerChars
  constructor
  · rintro ⟨t, hts, hm⟩
    rw [matchSeq_lits] at hm
    exact List.infix_iff_prefix_suffix.mpr ⟨t.map Char.toLower, hm, hts.map _⟩
  · intro hinf
    obtain ⟨u, v, huv⟩ := hinf
    refine ⟨s.data.drop u.length, List.drop_suffix _ _, ?_⟩
    rw [matchSeq_lits, List.map_drop, ← huv, List.append_assoc, List.drop_left]
    exact List.prefix_append _ _

lemma regexSearch_escaped_eq (q item : String) (es : List RElem)
    (h : compiledSearch q = some es) :
    regexSearchFrom es item.data = decide (substrCI q item) := by
  rw [compiledSearch_eq] at h
  obtain rfl := (Option.some_inj.mp h).symm
  by_cases hs : substrCI q item
  · simp [hs, (regexSearch_lits_iff q item).mpr hs]
  · have hne : ¬regexSearchFrom (q.data.map RElem.lit) item.data = true := by
      rw [regexSearch_lits_iff]; exact hs
    simp [hs, Bool.eq_false_iff.mpr hne]

-- ### The highlight dict

lemma foldStep_apply (g : Rack → List String) (racks : List Rack) (k : String)
    (hk : ∀ x ∈ racks, x.id ≠ k) :
    ∀ d : String → Option (List String),
      racks.foldl
        (fun d r =>
          let ms := g r
          if ms.isEmpty then d
          else fun k2 => if k2 == r.id then some ms else d k2) d k = d k := by
  induction racks with
  | nil => intro d; simp
  | cons a as ih =>
    intro d
    rw [List.foldl_cons]
    rw [ih (fun x hx => hk x (List.mem_cons_of_mem a hx))]
    by_cases h : (g a).isEmpty
    · simp [h]
    · have hne : ¬(k == a.id) = true := by
        simp only [beq_iff_eq]
        exact fun hkk => hk a (List.mem_cons_self a as) hkk.symm
      simp [h, hne]

lemma foldStep_apply_mem (g : Rack → List String) (racks : List Rack) (r : Rack) :
    r ∈ racks → (racks.map Rack.id).Nodup →
    ∀ d : String → Option (List String),
      racks.foldl
        (fun d r =>
          let ms := g r
          if ms.isEmpty then d
          else fun k2 => if k2 == r.id then some ms else d k2) d r.id =
        if (g r).isEmpty then d r.id else some (g r) := by
  induction racks with
  | nil => intro hr; simp at hr
  | cons a as ih =>
    intro hr hnodup d
    rw [List.foldl_cons]
    rcases List.mem_cons.mp hr with rfl | hmem
    · have hnotin : ∀ x ∈ as, x.id ≠ r.id := by
        intro x hx heq
        exact (List.nodup_cons.mp hnodup).1 (heq ▸ List.mem_map_of_mem Rack.id hx)
      rw [foldStep_apply g as r.id hnotin]
      by_cases h : (g r).isEmpty <;> simp [h]
    · have hane : a.id ≠ r.id := by
        intro heq
        exact (List.nodup_cons.mp hnodup).1 (heq ▸ List.mem_map_of_mem Rack.id hmem)
      rw [ih hmem (List.nodup_cons.mp hnodup).2]
      have hne2 : ¬(r.id == a.id) = true := by
        simp only [beq_iff_eq]
        exact fun e => hane e.symm
      by_cases h : (g a).isEmpty <;> simp [h, hne2]

lemma highlightFold_apply (g : Rack → List String) (racks : List Rack)
    (r : Rack) (hr : r ∈ racks) (hnodup : (racks.map Rack.id).Nodup) :
    highlightFold g racks r.id = if (g r).isEmpty then none else some (g r) := by
  unfold highlightFold
  exact foldStep_apply_mem g racks r hr hnodup (fun _ => none)

-- ### Search plumbing

lemma searchResults_sublist (store : Store) (q : String) :
    (searchResults store q).Sublist store :=
  (List.take_sublist _ _).trans (List.filter_sublist _)

lemma searchResults_nodup_ids (store : Store) (q : String)
    (h : (store.map Rack.id).Nodup) :
    ((searchResults store q).map Rack.id).Nodup :=
  h.sublist ((searchResults_sublist store q).map Rack.id)

lemma textMatch_iff (q : String) (r : Rack) (hop : opFree q) :
    textMatch q r = true ↔ tokenMatches q r := by
  have h1 : ('-' ∈ q.data) → False := fun hm => (hop _ hm).1 rfl
  have h2 : ('\x22' ∈ q.data) → False := fun hm => (hop _ hm).2 rfl
  rw [textMatch, if_neg (by
    simp only [List.contains, Bool.or_eq_true, List.elem_iff, not_or]
    exact ⟨h1, h2⟩)]
  simp [tokenMatches, indexTokens, List.any_eq_true, List.contains, List.elem_iff]

lemma string_length_pos (q : String) (hq : q ≠ "") : ¬q.length < 1 := by
  intro h
  have h0 : q.length = 0 := Nat.lt_one_iff.mp h
  exact hq (by
    cases q with
    | mk data =>
      cases data with
      | nil => rfl
      | cons c cs => simp [String.length] at h0)

lemma search_racks_ok (store : Store) (q : String) (hq : q ≠ "") :
    search_racks store q =
      .ok { racks := searchResults store q,
            matchedItems := searchMatchedItems store q } := by
  simp [search_racks, string_length_pos q hq, compiledSearch_eq]

lemma searchMatchedItems_eq_spec (store : Store) (q : String) :
    searchMatchedItems store q = specMatchedItems q (searchResults store q) := by
  unfold searchMatchedItems specMatchedItems
  rw [compiledSearch_eq]
  have hfun : (fun r : Rack =>
      r.items.filter (fun item => regexSearchFrom (q.data.map RElem.lit) item.data)) =
      fun r : Rack => r.items.filter (fun item => decide (substrCI q item)) := by
    funext r
    apply List.filter_congr
    intro item _
    exact regexSearch_escaped_eq q item _ (compiledSearch_eq q)
  exact congrArg (fun g => highlightFold g (searchResults store q)) hfun

-- ### Grouping by floor

lemma lookup_addToFloor (acc : List (String × List Rack)) (r : Rack) (f : String) :
    (addToFloor acc r).lookup f =
      if f = r.floor then
        (match acc.lookup f with
         | some rs => some (rs ++ [r])
         | none => none)
      else acc.lookup f := by
  induction acc with
  | nil => by_cases h : f = r.floor <;> simp [addToFloor, h]
  | cons p rest ih =>
    obtain ⟨g, rs⟩ := p
    by_cases hgr : r.floor = g
    · subst hgr
      rw [show addToFloor ((r.floor, rs) :: rest) r = (r.floor, rs ++ [r]) :: rest from by
        simp [addToFloor]]
      by_cases hf : f = r.floor
      · subst hf
        simp [List.lookup]
      · have hb : (f == r.floor) = false := by simp [hf]
        simp [List.lookup, hb, hf]
    · rw [show addToFloor ((g, rs) :: rest) r = (g, rs) :: addToFloor rest r from by
        simp [addToFloor, fun e : r.floor = g => hgr e]]
      by_cases hf : f = g
      · subst hf
        have hb : (f == f) = true := by simp
        simp only [List.lookup, hb]
        rw [if_neg (fun e : f = r.floor => hgr e.symm)]
      · have hb : (f == g) = false := by simp [hf]
        simp [List.lookup, hb, ih]

lemma lookup_groupFold (racks : List Rack) (f : String) :
    ∀ acc rs, acc.lookup f = some rs →
      (racks.foldl addToFloor acc).lookup f =
        some (rs ++ racks.filter (fun r => r.floor == f)) := by
  induction racks with
  | nil => intro acc rs h; simpa using h
  | cons a as ih =>
    intro acc rs h
    rw [List.foldl_cons]
    by_cases haf : a.floor = f
    · have hl : (addToFloor acc a).lookup f = some (rs ++ [a]) := by
        rw [lookup_addToFloor, if_pos haf.symm, h]
      rw [ih _ _ hl]
      simp [List.filter_cons, haf]
    · have hl : (addToFloor acc a).lookup f = some rs := by
        rw [lookup_addToFloor, if_neg (fun e : f = a.floor => haf e.symm)]
        exact h
      rw [ih _ _ hl]
      simp [List.filter_cons, haf]

lemma lookup_groupFold_none (racks : List Rack) (f : String) :
    ∀ acc, acc.lookup f = none →
      (racks.foldl addToFloor acc).lookup f = none := by
  induction racks with
  | nil => intro acc h; simpa using h
  | cons a as ih =>
    intro acc h
    rw [List.foldl_cons]
    refine ih _ ?_
    rw [lookup_addToFloor]
    by_cases hf : f = a.floor
    · rw [if_pos hf, h]
    · rw [if_neg hf]; exact h

lemma addToFloor_keys (acc : List (String × List Rack)) (r : Rack) :
    (addToFloor acc r).map Prod.fst = acc.map Prod.fst := by
  induction acc with
  | nil => simp [addToFloor]
  | cons p rest ih =>
    obtain ⟨g, rs⟩ := p
    by_cases h : r.floor == g <;> simp [addToFloor, h, ih]

lemma groupFold_keys (racks : List Rack) :
    ∀ acc, (racks.foldl addToFloor acc).map Prod.fst = acc.map Prod.fst := by
  induction racks with
  | nil => intro acc; simp
  | cons a as ih =>
    intro acc
    rw [List.foldl_cons, ih, addToFloor_keys]

lemma groupByFloor_keys (keys : List String) (racks : List Rack) :
    (groupByFloor keys racks).map Prod.fst = keys := by
  unfold groupByFloor
  rw [groupFold_keys]
  simp [Function.comp_def]

lemma lookup_init_mem (keys : List String) (f : String) (hf : f ∈ keys) :
    (keys.map fun g => (g, ([] : List Rack))).lookup f = some [] := by
  induction keys with
  | nil => simp at hf
  | cons k ks ih =>
    by_cases h : f = k
    · simp [List.lookup, h]
    · rcases List.mem_cons.mp hf with h1 | h2
      · exact absurd h1 h
      · have hb : (f == k) = false := by simp [h]
        simp [List.lookup, hb, ih h2]

lemma lookup_init_not_mem (keys : List String) (f : String) (hf : f ∉ keys) :
    (keys.map fun g => (g, ([] : List Rack))).lookup f = none := by
  induction keys with
  | nil => simp
  | cons k ks ih =>
    have h : f ≠ k := fun e => hf (by simp [e])
    have hb : (f == k) = false := by simp [h]
    simp [List.lookup, hb, ih (fun h2 => hf (by simp [h2]))]

lemma groupByFloor_lookup_mem (keys : List String) (racks : List Rack) (f : String)
    (hf : f ∈ keys) :
    (groupByFloor keys racks).lookup f =
      some (racks.filter (fun r => r.floor == f)) := by
  unfold groupByFloor
  simpa using lookup_groupFold racks f _ [] (lookup_init_mem keys f hf)

lemma groupByFloor_lookup_not_mem (keys : List String) (racks : List Rack) (f : String)
    (hf : f ∉ keys) :
    (groupByFloor keys racks).lookup f = none := by
  unfold groupByFloor
  exact lookup_groupFold_none racks f _ (lookup_init_not_mem keys f hf)

lemma sizes_addToFloor (acc : List (String × List Rack)) (r : Rack) :
    ((addToFloor acc r).map fun kv => kv.2.length).sum ≤
      ((acc.map fun kv => kv.2.length).sum) + 1 := by
  induction acc with
  | nil => simp [addToFloor]
  | cons p rest ih =>
    obtain ⟨g, rs⟩ := p
    by_cases h : r.floor == g
    · simp [addToFloor, h]
      omega
    · simp [addToFloor, h]
      omega

lemma sizes_groupFold (racks : List Rack) :
    ∀ acc, ((racks.foldl addToFloor acc).map fun kv => kv.2.length).sum ≤
      ((acc.map fun kv => kv.2.length).sum) + racks.length := by
  induction racks with
  | nil => intro acc; simp
  | cons a as ih =>
    intro acc
    rw [List.foldl_cons]
    have h1 := ih (addToFloor acc a)
    have h2 := sizes_addToFloor acc a
    simp only [List.length_cons]
    omega

lemma sizes_init (keys : List String) :
    ((keys.map fun f => (f, ([] : List Rack))).map fun kv => kv.2.length).sum = 0 := by
  induction keys with
  | nil => simp
  | cons k ks ih => simp [Function.comp_def, ih]

lemma sizes_groupByFloor (keys : List String) (racks : List Rack) :
    ((groupByFloor keys racks).map fun kv => kv.2.length).sum ≤ racks.length := by
  unfold groupByFloor
  have := sizes_groupFold racks (keys.map fun f => (f, ([] : List Rack)))
  rwa [sizes_init, Nat.zero_add] at this

-- ### Lifecycle invariant machinery

lemma flatMap_opTimes_sublist {l1 l2 : List Op} (h : l1.Sublist l2) :
    (l1.flatMap opTimes).Sublist (l2.flatMap opTimes) := by
  induction h with
  | slnil => simp
  | cons a h ih =>
    simpa [List.flatMap_cons] using ih.trans (List.sublist_append_right (opTimes a) _)
  | cons₂ a h ih =>
    simpa [List.flatMap_cons] using ih.append_left (opTimes a)

lemma execOps_bounded (ops : List Op) :
    ∀ (store : Store) (t : Nat),
      (∀ r ∈ store, r.createdAt ≤ r.updatedAt ∧ r.updatedAt ≤ t) →
      List.Sorted (· ≤ ·) (t :: ops.flatMap opTimes) →
      ∃ t2, ∀ r ∈ execOps store ops, r.createdAt ≤ r.updatedAt ∧ r.updatedAt ≤ t2 := by
  induction ops with
  | nil =>
    intro store t hinv _
    exact ⟨t, by simpa [execOps] using hinv⟩
  | cons op rest ih =>
    intro store t hinv hsort
    have hexec : execOps store (op :: rest) = execOps (applyOp store op) rest := by
      simp [execOps, List.foldl_cons]
    rw [hexec]
    cases op with
    | create freshId rackNumber floor items nowC nowU =>
      have hsort1 := List.sorted_cons.mp hsort
      have hsort2 := List.sorted_cons.mp hsort1.2
      have hsort3 := List.sorted_cons.mp hsort2.2
      have htc : t ≤ nowC := hsort1.1 nowC (by simp [opTimes, List.flatMap_cons])
      have hcU : nowC ≤ nowU := hsort2.1 nowU (by simp)
      refine ih _ nowU ?_ (List.sorted_cons.mpr ⟨hsort3.1, hsort3.2⟩)
      intro r hr
      simp only [applyOp, create_rack, List.mem_append, List.mem_singleton] at hr
      rcases hr with hr | rfl
      · obtain ⟨h1, h2⟩ := hinv r hr
        exact ⟨h1, h2.trans (htc.trans hcU)⟩
      · exact ⟨hcU, le_refl _⟩
    | update rack_id u now =>
      have hsort1 := List.sorted_cons.mp hsort
      have hsort2 := List.sorted_cons.mp hsort1.2
      have htn : t ≤ now := hsort1.1 now (by simp [opTimes, List.flatMap_cons])
      refine ih _ now ?_ (List.sorted_cons.mpr ⟨hsort2.1, hsort2.2⟩)
      intro r hr
      cases hfind : find_one store rack_id with
      | none =>
        rw [show applyOp store (Op.update rack_id u now) = store from by
          simp [applyOp, update_rack, hfind]] at hr
        obtain ⟨h1, h2⟩ := hinv r hr
        exact ⟨h1, h2.trans htn⟩
      | some r0 =>
        rw [show applyOp store (Op.update rack_id u now)
              = updateFirst store rack_id (applySet u now) from by
          simp [applyOp, update_rack_ok store rack_id u now r0 hfind]] at hr
        rcases mem_updateFirst store rack_id (applySet u now) r hr with hmem | ⟨y, hy, rfl⟩
        · obtain ⟨h1, h2⟩ := hinv r hmem
          exact ⟨h1, h2.trans htn⟩
        · obtain ⟨h1, h2⟩ := hinv y hy
          exact ⟨(h1.trans h2).trans htn, le_refl _⟩
    | delete rack_id =>
      have hsort' : List.Sorted (· ≤ ·) (t :: rest.flatMap opTimes) := by
        simpa [opTimes, List.flatMap_cons] using hsort
      refine ih _ t ?_ hsort'
      intro r hr
      by_cases hany : store.any (fun x => x.id == rack_id)
      · rw [show applyOp store (Op.delete rack_id)
              = store.eraseP (fun x => x.id == rack_id) from by
          simp [applyOp, delete_rack, hany]] at hr
        exact hinv r (List.mem_of_mem_eraseP hr)
      · rw [show applyOp store (Op.delete rack_id) = store from by
          simp [applyOp, delete_rack, hany]] at hr
        exact hinv r hr

-- ### Helper facts for the oversized-store scenario

lemma dedup_replicate_succ {α : Type} [DecidableEq α] (a : α) :
    ∀ n, (List.replicate (n + 1) a).dedup = [a] := by
  intro n
  induction n with
  | zero => simp
  | succ n ih =>
    rw [List.replicate_succ, List.dedup_cons_of_mem (by simp [List.mem_replicate])]
    exact ih

lemma insertionSort_replicate (n : Nat) :
    List.insertionSort (fun x y : Rack => strLe x.floor y.floor = true)
      (List.replicate n rackA) = List.replicate n rackA := by
  rw [List.eq_replicate_iff]
  constructor
  · rw [(List.perm_insertionSort _ _).length_eq, List.length_replicate]
  · intro b hb
    exact List.eq_of_mem_replicate ((List.perm_insertionSort _ _).mem_iff.mp hb)

lemma groupFold_single (n : Nat) :
    ∀ acc, (List.replicate n rackA).foldl addToFloor [("A", acc)] =
      [("A", acc ++ List.replicate n rackA)] := by
  induction n with
  | zero => intro acc; simp
  | succ n ih =>
    intro acc
    rw [List.replicate_succ, List.foldl_cons]
    rw [show addToFloor [("A", acc)] rackA = [("A", acc ++ [rackA])] from by
      simp [addToFloor, rackA]]
    rw [ih]
    simp [List.replicate_succ]

-- ## The claims

/-- C1 (counterexample to the claim as stated): the non-empty query `"lect"`
occurs as a case-insensitive substring of the item `"Electronics"` of the
stored rack, yet the `$text`-backed search returns no rack at all — MongoDB
text search matches whole tokens, not substrings inside a word, so recall is
not a superset of the literal-substring matches. -/
theorem C1_counterexample :
    ("lect" : String) ≠ "" ∧
    rackE ∈ ([rackE] : Store) ∧
    "Electronics" ∈ rackE.items ∧
    substrCI "lect" "Electronics" ∧
    search_racks [rackE] "lect" =
      .ok { racks := [], matchedItems := fun _ => none } :=
  ⟨by decide, by decide, by decide, by decide, rfl⟩

/-- C1 (amended): the search's recall is token-level and analyzer-filtered:
for every store and every non-empty query free of `$search` operator
characters (`-` negation, `"` phrase delimiters), every stored rack sharing a
non-stop-word (case-insensitive) whole token of the query in `rackNumber`,
`floor` or an item is returned, provided at most 1000 racks match (the
`to_list(1000)` cap); the response is produced without error.  Stop-word
query terms are dropped by the index's English analyzer, operators restrict
matches further, and substring-inside-a-word matches are never guaranteed. -/
theorem C1_search_token_recall (store : Store) (q : String) (hq : q ≠ "")
    (hop : opFree q)
    (r : Rack) (hr : r ∈ store) (hmatch : tokenMatches q r)
    (hcap : (store.filter (textMatch q)).length ≤ 1000) :
    search_racks store q =
      .ok { racks := searchResults store q,
            matchedItems := searchMatchedItems store q } ∧
    r ∈ searchResults store q := by
  refine ⟨search_racks_ok store q hq, ?_⟩
  unfold searchResults
  rw [List.take_of_length_le hcap]
  exact List.mem_filter.mpr ⟨hr, (textMatch_iff q r hop).mpr hmatch⟩

/-- C1 witness: searching `"Electronics"` over the spec's two example racks
returns rack R001. -/
theorem C1_witness :
    (("Electronics" : String) ≠ "" ∧ opFree "Electronics" ∧
      rackE ∈ ([rackE, rackC] : Store) ∧
      tokenMatches "Electronics" rackE ∧
      (([rackE, rackC] : Store).filter (textMatch "Electronics")).length ≤ 1000) ∧
    (search_racks [rackE, rackC] "Electronics" =
      .ok { racks := searchResults [rackE, rackC] "Electronics",
            matchedItems := searchMatchedItems [rackE, rackC] "Electronics" } ∧
     rackE ∈ searchResults [rackE, rackC] "Electronics") :=
  ⟨⟨by decide, by decide, by decide, by decide, by decide⟩,
    C1_search_token_recall [rackE, rackC] "Electronics" (by decide) (by decide)
      rackE (by decide) (by decide) (by decide)⟩

/-- C2: highlight precision.  For every non-empty query and store with unique
rack ids, and every rack in the returned `racks` list: the rack's id is a key
of `matchedItems` iff some item of the rack contains the query as a
case-insensitive literal substring, and the stored value is exactly the list
of such items; a rack with no item match (matched via `rackNumber`/`floor`
tokens only) has no entry. -/
theorem C2_highlight_precision (store : Store) (q : String) (hq : q ≠ "")
    (hnodup : (store.map Rack.id).Nodup) (r : Rack)
    (hr : r ∈ searchResults store q) :
    search_racks store q =
      .ok { racks := searchResults store q,
            matchedItems := searchMatchedItems store q } ∧
    ((searchMatchedItems store q r.id).isSome ↔ ∃ item ∈ r.items, substrCI q item) ∧
    (∀ l, searchMatchedItems store q r.id = some l →
      l = r.items.filter (fun item => decide (substrCI q item)) ∧ l ≠ []) := by
  have hnod2 := searchResults_nodup_ids store q hnodup
  have hmi : searchMatchedItems store q r.id =
      if (r.items.filter (fun item => decide (substrCI q item))).isEmpty then none
      else some (r.items.filter (fun item => decide (substrCI q item))) := by
    rw [searchMatchedItems_eq_spec]
    exact highlightFold_apply _ (searchResults store q) r hr hnod2
  refine ⟨search_racks_ok store q hq, ?_, ?_⟩
  · rw [hmi]
    by_cases h : (r.items.filter (fun item => decide (substrCI q item))).isEmpty
    · rw [if_pos h]
      simp only [Option.isSome_none, Bool.false_eq_true, false_iff]
      rintro ⟨item, hitem, hsub⟩
      rw [List.isEmpty_iff] at h
      have := List.filter_eq_nil_iff.mp h item hitem
      simp [hsub] at this
    · rw [if_neg h]
      simp only [Option.isSome_some, true_iff]
      rw [List.isEmpty_iff] at h
      obtain ⟨item, hitem⟩ := List.exists_mem_of_ne_nil _ h
      have := List.mem_filter.mp hitem
      exact ⟨item, this.1, by simpa using this.2⟩
  · intro l hl
    rw [hmi] at hl
    by_cases h : (r.items.filter (fun item => decide (substrCI q item))).isEmpty
    · rw [if_pos h] at hl
      exact absurd hl (by simp)
    · rw [if_neg h] at hl
      rw [List.isEmpty_iff] at h
      have heq := Option.some_inj.mp hl
      exact ⟨heq.symm, heq ▸ h⟩

/-- C2 witness: over the spec's two example racks, searching `"Electronics"`
puts rack R001 in the results with a highlight entry. -/
theorem C2_witness :
    (("Electronics" : String) ≠ "" ∧
      (([rackE, rackC] : Store).map Rack.id).Nodup ∧
      rackE ∈ searchResults [rackE, rackC] "Electronics") ∧
    (search_racks [rackE, rackC] "Electronics" =
      .ok { racks := searchResults [rackE, rackC] "Electronics",
            matchedItems := searchMatchedItems [rackE, rackC] "Electronics" } ∧
     ((searchMatchedItems [rackE, rackC] "Electronics" rackE.id).isSome ↔
        ∃ item ∈ rackE.items, substrCI "Electronics" item) ∧
     (∀ l, searchMatchedItems [rackE, rackC] "Electronics" rackE.id = some l →
        l = rackE.items.filter (fun item => decide (substrCI "Electronics" item)) ∧
        l ≠ [])) :=
  ⟨⟨by decide, by decide, by decide⟩,
    C2_highlight_precision [rackE, rackC] "Electronics" (by decide) (by decide)
      rackE (by decide)⟩

/-- C3 (counterexample to the claim as stated): creation fills `createdAt` and
`updatedAt` through two separate `default_factory` clock calls; with readings
0 then 1 the fetched record round-trips `rackNumber`, `floor` and `items` but
has `createdAt ≠ updatedAt`. -/
theorem C3_counterexample :
    get_rack (create_rack [] ⟨"R1", "F1", ["x"]⟩ "id0" 0 1).1 "id0" =
      .ok { id := "id0", rackNumber := "R1", floor := "F1", items := ["x"],
            createdAt := 0, updatedAt := 1 } ∧
    ({ id := "id0", rackNumber := "R1", floor := "F1", items := ["x"],
       createdAt := 0, updatedAt := 1 } : Rack).createdAt ≠
      ({ id := "id0", rackNumber := "R1", floor := "F1", items := ["x"],
         createdAt := 0, updatedAt := 1 } : Rack).updatedAt :=
  ⟨rfl, by decide⟩

/-- C3 (amended): creating a rack with a fresh id and then fetching the
returned id yields the created record with `rackNumber`, `floor`, `items`
equal to the input, `createdAt ≤ updatedAt` whenever the two creation clock
reads are ordered, and `createdAt = updatedAt` exactly when the two creation
clock reads coincide. -/
theorem C3_create_get_roundtrip (store : Store) (input : RackCreate)
    (freshId : String) (nowC nowU : Nat)
    (hfresh : ∀ r ∈ store, r.id ≠ freshId) (hclock : nowC ≤ nowU) :
    get_rack (create_rack store input freshId nowC nowU).1
        (create_rack store input freshId nowC nowU).2.id =
      .ok (create_rack store input freshId nowC nowU).2 ∧
    (create_rack store input freshId nowC nowU).2.rackNumber = input.rackNumber ∧
    (create_rack store input freshId nowC nowU).2.floor = input.floor ∧
    (create_rack store input freshId nowC nowU).2.items = input.items ∧
    (create_rack store input freshId nowC nowU).2.createdAt ≤
      (create_rack store input freshId nowC nowU).2.updatedAt ∧
    (nowC = nowU →
      (create_rack store input freshId nowC nowU).2.createdAt =
        (create_rack store input freshId nowC nowU).2.updatedAt) := by
  have hfind := find_one_append_of_fresh store
      (create_rack store input freshId nowC nowU).2 hfresh
  exact ⟨by simp [get_rack, create_rack] at hfind ⊢; simp [hfind],
    rfl, rfl, rfl, hclock, fun h => h⟩

/-- C3 witness: a concrete create-then-get round-trip with coinciding clock
reads. -/
theorem C3_witness :
    ((∀ r ∈ ([] : Store), r.id ≠ "id0") ∧ (2 : Nat) ≤ 2) ∧
    (get_rack (create_rack [] ⟨"R1", "F1", ["x"]⟩ "id0" 2 2).1
        (create_rack [] ⟨"R1", "F1", ["x"]⟩ "id0" 2 2).2.id =
      .ok (create_rack [] ⟨"R1", "F1", ["x"]⟩ "id0" 2 2).2 ∧
    (create_rack [] ⟨"R1", "F1", ["x"]⟩ "id0" 2 2).2.rackNumber = "R1" ∧
    (create_rack [] ⟨"R1", "F1", ["x"]⟩ "id0" 2 2).2.floor = "F1" ∧
    (create_rack [] ⟨"R1", "F1", ["x"]⟩ "id0" 2 2).2.items = ["x"] ∧
    (create_rack [] ⟨"R1", "F1", ["x"]⟩ "id0" 2 2).2.createdAt ≤
      (create_rack [] ⟨"R1", "F1", ["x"]⟩ "id0" 2 2).2.updatedAt ∧
    ((2 : Nat) = 2 →
      (create_rack [] ⟨"R1", "F1", ["x"]⟩ "id0" 2 2).2.createdAt =
        (create_rack [] ⟨"R1", "F1", ["x"]⟩ "id0" 2 2).2.updatedAt)) :=
  ⟨⟨by simp, by decide⟩,
    C3_create_get_roundtrip [] ⟨"R1", "F1", ["x"]⟩ "id0" 2 2 (by simp) (by decide)⟩

/-- C4: metacharacter safety.  For every non-empty query — in particular any
query holding regex metacharacters — the search endpoint returns a response
(no crash: `re.escape` makes the pattern always compile), and its highlight
dict coincides with the spec-side literal-substring highlighting: escaping
reduces the compiled pattern to a pure literal, so `.`/`*`/`(` in the query
are matched verbatim, never interpreted. -/
theorem C4_metachar_literal (store : Store) (q : String) (hq : q ≠ "") :
    search_racks store q =
      .ok { racks := searchResults store q,
            matchedItems := specMatchedItems q (searchResults store q) } := by
  rw [search_racks_ok store q hq, searchMatchedItems_eq_spec]

/-- C4 witness: the query `"R0*1"` (with a `*` metacharacter) at a store whose
rack holds the literal item `"R0*1 spare"`. -/
theorem C4_witness :
    ("R0*1" : String) ≠ "" ∧
    search_racks [rackStar] "R0*1" =
      .ok { racks := searchResults [rackStar] "R0*1",
            matchedItems := specMatchedItems "R0*1" (searchResults [rackStar] "R0*1") } :=
  ⟨by decide, C4_metachar_literal [rackStar] "R0*1" (by decide)⟩

/-- C5 (counterexample to the claim as stated): with 10001 racks on one floor
and `page = 1`, `limit = 5` (≥ the single distinct floor), the fetch is capped
at `to_list(10000)`, so the mapping's value for that floor holds 10000 racks —
not exactly the 10001 racks whose floor equals the key. -/
theorem C5_counterexample :
    get_all_racks bigStore 1 5 = .ok [("A", List.replicate 10000 rackA)] ∧
    (bigStore.filter (fun r => r.floor == "A")).length = 10001 ∧
    (List.replicate 10000 rackA).length ≠ 10001 := by
  have hfloors : bigStore.map Rack.floor = List.replicate 10001 "A" := by
    rw [show bigStore = List.replicate 10001 rackA from rfl, List.map_replicate]
    rfl
  have hsorted : distinctFloorsSorted bigStore = ["A"] := by
    unfold distinctFloorsSorted
    rw [hfloors, dedup_replicate_succ "A" 10000]
    rfl
  have hfilter : bigStore.filter (fun r => (["A"] : List String).contains r.floor) =
      List.replicate 10001 rackA := by
    rw [show bigStore = List.replicate 10001 rackA from rfl, List.filter_replicate]
    rfl
  have hfetch : racksForFloors bigStore ["A"] = List.replicate 10000 rackA := by
    unfold racksForFloors
    rw [hfilter, insertionSort_replicate, List.take_replicate]
    rfl
  have hgroup : groupByFloor ["A"] (List.replicate 10000 rackA) =
      [("A", List.replicate 10000 rackA)] := by
    unfold groupByFloor
    rw [show (["A"].map fun f => (f, ([] : List Rack))) = [("A", [])] from rfl]
    rw [groupFold_single 10000 []]
    rw [List.nil_append]
  refine ⟨?_, ?_, by rw [List.length_replicate]; omega⟩
  · rw [get_all_racks, if_neg (by decide)]
    rw [if_neg (by rw [hsorted]; exact by decide)]
    rw [hsorted]
    rw [show pageWindow 1 5 ["A"] = ["A"] from rfl]
    rw [hfetch, hgroup]
  · have hc : ((fun r : Rack => r.floor == "A") rackA) = true := rfl
    rw [show bigStore = List.replicate 10001 rackA from rfl, List.filter_replicate,
      if_pos hc, List.length_replicate]

/-- C5 (amended): floor pagination as claimed — the slice
`[skip, skip + limit)` of the ascending distinct-floor list with
`skip = (page-1)*limit`, empty mapping past the last page, and for `page = 1`
with `limit` ≥ the number of distinct floors every floor appears exactly once,
mapped to exactly (as a multiset) the racks on it — provided the store holds
at most 10000 racks, the per-page fetch cap. -/
theorem C5_floor_pagination (store : Store) (page limit : Nat)
    (hpage : 1 ≤ page) (hlim1 : 1 ≤ limit) (hlim2 : limit ≤ 20)
    (hsize : store.length ≤ 10000) :
    ((distinctFloorsSorted store).length ≤ (page - 1) * limit →
      get_all_racks store page limit = .ok []) ∧
    (page = 1 → (distinctFloorsSorted store).length ≤ limit →
      ∃ m, get_all_racks store page limit = .ok m ∧
        (m.map Prod.fst).Nodup ∧
        (∀ f, f ∈ m.map Prod.fst ↔ ∃ r ∈ store, r.floor = f) ∧
        (∀ f rs, m.lookup f = some rs →
          rs.Perm (store.filter (fun r => r.floor == f)))) := by
  have hval : ¬(page < 1 ∨ limit < 1 ∨ limit > 20) := by omega
  have hpermsort := List.perm_insertionSort
      (fun a b : String => strLe a b = true) ((store.map Rack.floor).dedup)
  constructor
  · intro hbeyond
    have hwin : pageWindow page limit (distinctFloorsSorted store) = [] := by
      unfold pageWindow
      rw [List.drop_eq_nil_of_le hbeyond, List.take_nil]
    rw [get_all_racks, if_neg hval, hwin]
    rfl
  · rintro rfl hlimge
    have hwin : pageWindow 1 limit (distinctFloorsSorted store) =
        distinctFloorsSorted store := by
      unfold pageWindow
      simp [List.take_of_length_le hlimge]
    by_cases hempty : (distinctFloorsSorted store).isEmpty
    · refine ⟨[], ?_, by simp, ?_, by simp⟩
      · rw [get_all_racks, if_neg hval, hwin, if_pos hempty]
      · intro f
        simp only [List.map_nil, List.not_mem_nil, false_iff]
        rintro ⟨r, hr, rfl⟩
        rw [List.isEmpty_iff] at hempty
        have : r.floor ∈ distinctFloorsSorted store := by
          unfold distinctFloorsSorted
          rw [hpermsort.mem_iff, List.mem_dedup]
          exact List.mem_map_of_mem Rack.floor hr
        rw [hempty] at this
        simp at this
    · have hmemW : ∀ f, f ∈ distinctFloorsSorted store ↔ ∃ r ∈ store, r.floor = f := by
        intro f
        unfold distinctFloorsSorted
        rw [hpermsort.mem_iff, List.mem_dedup, List.mem_map]
      have hfetch : racksForFloors store (distinctFloorsSorted store) =
          List.insertionSort (fun x y : Rack => strLe x.floor y.floor = true)
            (store.filter (fun r => (distinctFloorsSorted store).contains r.floor)) := by
        unfold racksForFloors
        apply List.take_of_length_le
        rw [(List.perm_insertionSort _ _).length_eq]
        exact (List.length_filter_le _ _).trans hsize
      refine ⟨groupByFloor (distinctFloorsSorted store)
          (racksForFloors store (distinctFloorsSorted store)), ?_, ?_, ?_, ?_⟩
      · rw [get_all_racks, if_neg hval, hwin, if_neg (by simp [hempty])]
      · rw [groupByFloor_keys]
        unfold distinctFloorsSorted
        exact hpermsort.nodup_iff.mpr (List.nodup_dedup _)
      · intro f
        rw [groupByFloor_keys]
        exact hmemW f
      · intro f rs hlook
        by_cases hf : f ∈ distinctFloorsSorted store
        · rw [groupByFloor_lookup_mem _ _ _ hf] at hlook
          obtain rfl := (Option.some_inj.mp hlook).symm
          rw [hfetch]
          refine (((List.perm_insertionSort
              (fun x y : Rack => strLe x.floor y.floor = true)
              (store.filter (fun r => (distinctFloorsSorted store).contains r.floor))).filter
            (fun r => r.floor == f)).trans ?_)
          rw [List.filter_filter]
          have hpt : ∀ a ∈ store,
              ((a.floor == f) && (distinctFloorsSorted store).contains a.floor) =
                (a.floor == f) := by
            intro a _
            by_cases hrf : a.floor = f
            · simp only [hrf, beq_self_eq_true, Bool.true_and]
              simp [List.contains, List.elem_iff, hf]
            · simp [hrf]
          rw [List.filter_congr hpt]
        · rw [groupByFloor_lookup_not_mem _ _ _ hf] at hlook
          exact absurd hlook (by simp)

/-- C5 witness: two racks on one floor, `page = 1`, `limit = 5`. -/
theorem C5_witness :
    ((1 : Nat) ≤ 1 ∧ (1 : Nat) ≤ 5 ∧ (5 : Nat) ≤ 20 ∧
      ([rackE, rackC] : Store).length ≤ 10000) ∧
    (((distinctFloorsSorted [rackE, rackC]).length ≤ (1 - 1) * 5 →
      get_all_racks [rackE, rackC] 1 5 = .ok []) ∧
    ((1 : Nat) = 1 → (distinctFloorsSorted [rackE, rackC]).length ≤ 5 →
      ∃ m, get_all_racks [rackE, rackC] 1 5 = .ok m ∧
        (m.map Prod.fst).Nodup ∧
        (∀ f, f ∈ m.map Prod.fst ↔ ∃ r ∈ ([rackE, rackC] : Store), r.floor = f) ∧
        (∀ f rs, m.lookup f = some rs →
          rs.Perm (([rackE, rackC] : Store).filter (fun r => r.floor == f))))) :=
  ⟨⟨by decide, by decide, by decide, by decide⟩,
    C5_floor_pagination [rackE, rackC] 1 5 (by decide) (by decide) (by decide)
      (by decide)⟩

/-- C6 (counterexample to the claim as stated): an items-only update whose
clock reading coincides with the stored `updatedAt` (the clock has finite
resolution) replaces `items` and keeps everything else, but `updatedAt` stays
equal — it does not strictly advance. -/
theorem C6_counterexample :
    rackE.updatedAt = 0 ∧
    update_rack [rackE] "id1" ⟨none, none, some ["y"]⟩ 0 =
      .ok ([{ id := "id1", rackNumber := "R001", floor := "Ground Floor",
              items := ["y"], createdAt := 0, updatedAt := 0 }],
           { id := "id1", rackNumber := "R001", floor := "Ground Floor",
             items := ["y"], createdAt := 0, updatedAt := 0 }) ∧
    ¬(rackE.updatedAt < (0 : Nat)) :=
  ⟨rfl, rfl, by decide⟩

/-- C6 (amended): a partial update of an existing rack succeeds and returns the
re-read stored record; `id` and `createdAt` are never touched, every omitted
(`none`) field keeps its prior value, a supplied `items` replaces the whole
list, `updatedAt` becomes the update's clock reading — strictly advancing
whenever the clock has moved past the stored `updatedAt`. -/
theorem C6_partial_update_frame (store : Store) (rack_id : String)
    (u : RackUpdate) (now : Nat) (r : Rack)
    (hfind : find_one store rack_id = some r) :
    update_rack store rack_id u now =
      .ok (updateFirst store rack_id (applySet u now), applySet u now r) ∧
    find_one (updateFirst store rack_id (applySet u now)) rack_id =
      some (applySet u now r) ∧
    (applySet u now r).id = r.id ∧
    (applySet u now r).createdAt = r.createdAt ∧
    (applySet u now r).updatedAt = now ∧
    (u.rackNumber = none → (applySet u now r).rackNumber = r.rackNumber) ∧
    (u.floor = none → (applySet u now r).floor = r.floor) ∧
    (∀ l, u.items = some l → (applySet u now r).items = l) ∧
    (r.updatedAt < now → r.updatedAt < (applySet u now r).updatedAt) := by
  refine ⟨update_rack_ok store rack_id u now r hfind,
    find?_updateFirst store rack_id _ r (by simpa [find_one] using hfind) rfl,
    rfl, rfl, rfl, ?_, ?_, ?_, ?_⟩
  · intro h; simp [applySet, h]
  · intro h; simp [applySet, h]
  · intro l h; simp [applySet, h]
  · intro h; simpa [applySet] using h

/-- C6 witness: an items-only update of the example rack at a strictly later
clock reading. -/
theorem C6_witness :
    find_one [rackE] "id1" = some rackE ∧
    (update_rack [rackE] "id1" ⟨none, none, some ["y"]⟩ 5 =
      .ok (updateFirst [rackE] "id1" (applySet ⟨none, none, some ["y"]⟩ 5),
           applySet ⟨none, none, some ["y"]⟩ 5 rackE) ∧
    find_one (updateFirst [rackE] "id1" (applySet ⟨none, none, some ["y"]⟩ 5)) "id1" =
      some (applySet ⟨none, none, some ["y"]⟩ 5 rackE) ∧
    (applySet ⟨none, none, some ["y"]⟩ 5 rackE).id = rackE.id ∧
    (applySet ⟨none, none, some ["y"]⟩ 5 rackE).createdAt = rackE.createdAt ∧
    (applySet ⟨none, none, some ["y"]⟩ 5 rackE).updatedAt = 5 ∧
    ((⟨none, none, some ["y"]⟩ : RackUpdate).rackNumber = none →
      (applySet ⟨none, none, some ["y"]⟩ 5 rackE).rackNumber = rackE.rackNumber) ∧
    ((⟨none, none, some ["y"]⟩ : RackUpdate).floor = none →
      (applySet ⟨none, none, some ["y"]⟩ 5 rackE).floor = rackE.floor) ∧
    (∀ l, (⟨none, none, some ["y"]⟩ : RackUpdate).items = some l →
      (applySet ⟨none, none, some ["y"]⟩ 5 rackE).items = l) ∧
    (rackE.updatedAt < 5 →
      rackE.updatedAt < (applySet ⟨none, none, some ["y"]⟩ 5 rackE).updatedAt)) :=
  ⟨rfl, C6_partial_update_frame [rackE] "id1" ⟨none, none, some ["y"]⟩ 5 rackE rfl⟩

/-- C7 (counterexample to the claim as stated): a payload whose `rackNumber`
and `floor` both trim to the empty string is not rejected — creation persists
the rack (the pydantic model declares bare `str` fields with no constraint). -/
theorem C7_counterexample :
    pyStrip "" = [] ∧ pyStrip " " = [] ∧
    create_rack [] ⟨"", " ", []⟩ "id0" 0 0 =
      ([{ id := "id0", rackNumber := "", floor := " ", items := [],
          createdAt := 0, updatedAt := 0 }],
       { id := "id0", rackNumber := "", floor := " ", items := [],
         createdAt := 0, updatedAt := 0 }) :=
  ⟨rfl, rfl, rfl⟩

/-- C7 (amended): `create_rack` performs no non-emptiness validation at all:
every payload — including one whose `rackNumber` or `floor` trims to the empty
string — is persisted verbatim as a new rack rather than rejected. -/
theorem C7_no_create_validation (store : Store) (input : RackCreate)
    (freshId : String) (nowC nowU : Nat) :
    (create_rack store input freshId nowC nowU).1 =
      store ++ [(create_rack store input freshId nowC nowU).2] ∧
    (create_rack store input freshId nowC nowU).2.rackNumber = input.rackNumber ∧
    (create_rack store input freshId nowC nowU).2.floor = input.floor ∧
    (create_rack store input freshId nowC nowU).2.items = input.items :=
  ⟨rfl, rfl, rfl, rfl⟩

/-- C8: deletion is terminal.  With unique rack ids, after a successful
delete the same id yields Not-Found from get, from update and from a second
delete; and in general a delete reports Not-Found exactly when no record with
the id exists (the `deleted_count` test). -/
theorem C8_delete_terminal (store : Store) (rack_id : String) (u : RackUpdate)
    (now : Nat) (hnodup : (store.map Rack.id).Nodup) (store2 : Store)
    (hdel : delete_rack store rack_id = .ok store2) :
    get_rack store2 rack_id = .error .notFound ∧
    update_rack store2 rack_id u now = .error .notFound ∧
    delete_rack store2 rack_id = .error .notFound ∧
    (∀ s : Store, delete_rack s rack_id = .error .notFound ↔
      ¬∃ x ∈ s, x.id = rack_id) := by
  have hany : store.any (fun x => x.id == rack_id) = true := by
    by_contra h
    simp [delete_rack, h] at hdel
  have hst : store2 = store.eraseP (fun x => x.id == rack_id) := by
    rw [delete_rack, if_pos hany] at hdel
    exact (Except.ok.inj hdel).symm
  subst hst
  have hnone := find_one_eraseP_eq_none store rack_id hnodup
  have hany2 : (store.eraseP (fun x => x.id == rack_id)).any
      (fun x => x.id == rack_id) = false := by
    rw [List.any_eq_false]
    intro x hx
    simpa using eraseP_id_not_mem store rack_id hnodup x hx
  refine ⟨?_, ?_, ?_, ?_⟩
  · rw [get_rack, hnone]
  · rw [update_rack, hnone]
  · rw [delete_rack, if_neg (by simp [hany2])]
  · intro s
    constructor
    · rintro h ⟨x, hx, hid⟩
      have : s.any (fun x => x.id == rack_id) = true :=
        List.any_eq_true.mpr ⟨x, hx, by simp [hid]⟩
      rw [delete_rack, if_pos this] at h
      exact absurd h (by simp)
    · intro h
      have : s.any (fun x => x.id == rack_id) = false := by
        rw [List.any_eq_false]
        intro x hx hp
        exact h ⟨x, hx, by simpa using hp⟩
      rw [delete_rack, if_neg (by simp [this])]

/-- C8 witness: deleting the single stored rack, then observing Not-Found. -/
theorem C8_witness :
    (([rackE] : Store).map Rack.id).Nodup ∧
    delete_rack [rackE] "id1" = .ok [] ∧
    (get_rack [] "id1" = .error .notFound ∧
     update_rack [] "id1" ⟨none, none, none⟩ 9 = .error .notFound ∧
     delete_rack [] "id1" = .error .notFound ∧
     (∀ s : Store, delete_rack s "id1" = .error .notFound ↔
        ¬∃ x ∈ s, x.id = "id1")) :=
  ⟨by decide, rfl,
    C8_delete_terminal [rackE] "id1" ⟨none, none, none⟩ 9 (by decide) [] rfl⟩

/-- C9: timestamp invariant.  Along every request history whose clock readings
are monotone (readings happen in real-time order), every rack reachable after
every prefix of the history satisfies `createdAt ≤ updatedAt`: creation sets
both from its two ordered reads and updates only move `updatedAt` forward,
never touching `createdAt`. -/
theorem C9_timestamp_invariant (ops : List Op) (n : Nat)
    (hmono : List.Sorted (· ≤ ·) (ops.flatMap opTimes)) :
    ∀ r ∈ execOps [] (ops.take n), r.createdAt ≤ r.updatedAt := by
  have hsub : ((ops.take n).flatMap opTimes).Sublist (ops.flatMap opTimes) :=
    flatMap_opTimes_sublist (List.take_sublist n ops)
  have hsorted : List.Sorted (· ≤ ·) ((ops.take n).flatMap opTimes) :=
    List.Pairwise.sublist hsub hmono
  have hsorted0 : List.Sorted (· ≤ ·) (0 :: (ops.take n).flatMap opTimes) :=
    List.sorted_cons.mpr ⟨fun b _ => Nat.zero_le b, hsorted⟩
  obtain ⟨t2, h⟩ := execOps_bounded (ops.take n) [] 0 (by simp) hsorted0
  exact fun r hr => (h r hr).1

/-- C9 witness: a create followed by an items update at a later clock reading;
the surviving record satisfies the invariant. -/
theorem C9_witness :
    List.Sorted (· ≤ ·)
      (([Op.create "a" "R1" "F" [] 0 0,
         Op.update "a" ⟨none, none, some ["x"]⟩ 1] : List Op).flatMap opTimes) ∧
    ({ id := "a", rackNumber := "R1", floor := "F", items := ["x"],
       createdAt := 0, updatedAt := 1 } : Rack).createdAt ≤
      ({ id := "a", rackNumber := "R1", floor := "F", items := ["x"],
         createdAt := 0, updatedAt := 1 } : Rack).updatedAt :=
  ⟨by decide,
    C9_timestamp_invariant
      [Op.create "a" "R1" "F" [] 0 0, Op.update "a" ⟨none, none, some ["x"]⟩ 1] 2
      (by decide)
      { id := "a", rackNumber := "R1", floor := "F", items := ["x"],
        createdAt := 0, updatedAt := 1 }
      (by decide)⟩

/-- C10: result truncation.  For every store and non-empty query the search
response holds at most 1000 racks (`to_list(1000)`), and every successful
page of the floor-grouped listing materializes at most 10000 rack records in
total across its groups (`to_list(10000)`). -/
theorem C10_truncation (store : Store) (q : String) (page limit : Nat)
    (hq : q ≠ "") :
    (∀ resp, search_racks store q = .ok resp → resp.racks.length ≤ 1000) ∧
    (∀ m, get_all_racks store page limit = .ok m →
      (m.map fun kv => kv.2.length).sum ≤ 10000) := by
  constructor
  · intro resp hresp
    rw [search_racks_ok store q hq] at hresp
    obtain rfl := (Except.ok.inj hresp).symm
    exact List.length_take_le _ _
  · intro m hm
    by_cases hval : page < 1 ∨ limit < 1 ∨ limit > 20
    · rw [get_all_racks, if_pos hval] at hm
      exact absurd hm (by simp)
    · rw [get_all_racks, if_neg hval] at hm
      by_cases hwin : (pageWindow page limit (distinctFloorsSorted store)).isEmpty
      · rw [if_pos hwin] at hm
        obtain rfl := (Except.ok.inj hm).symm
        simp
      · rw [if_neg hwin] at hm
        obtain rfl := (Except.ok.inj hm).symm
        refine (sizes_groupByFloor _ _).trans ?_
        exact List.length_take_le _ _

/-- C10 witness: the empty store with query `"a"`, `page = 1`, `limit = 5`. -/
theorem C10_witness :
    ("a" : String) ≠ "" ∧
    ((∀ resp, search_racks [] "a" = .ok resp → resp.racks.length ≤ 1000) ∧
     (∀ m, get_all_racks [] 1 5 = .ok m →
        (m.map fun kv => kv.2.length).sum ≤ 10000)) :=
  ⟨by decide, C10_truncation [] "a" 1 5 (by decide)⟩

end RackMgmt
